import Mathlib

/-!
Shallow embedding of `.github/scripts/ai_staff_loop.py`: a bounded
plan → generate → apply → review loop driven by `main()`.

External collaborators (the two HTTP AI services, the `git` commands run
through `sh`, and `json.loads`) are modelled as oracle fields of an `Env`
record; everything the script itself computes (control flow, string
manipulation, report construction, state updates) is translated directly
from the source.
-/

set_option maxRecDepth 4000

namespace AiLoop

/-- JSON values as produced by `json.loads`.  Numbers are modelled as
integers; no claim involves fractional numeric payloads. -/
inductive Json where
  | null : Json
  | bool : Bool → Json
  | num : Int → Json
  | str : String → Json
  | arr : List Json → Json
  | obj : List (String × Json) → Json

/-- The brace characters, kept as named constants. -/
def lbrace : Char := Char.ofNat 123

def rbrace : Char := Char.ofNat 125

/-- Python `dict.get(k)` on a decoded JSON object (field list; a JSON
parser keeps the last of duplicate keys, hence the reverse). -/
def dictGet (d : List (String × Json)) (k : String) : Option Json :=
  List.lookup k d.reverse

/-- Python `str.startswith`, on code points. -/
def listPrefixBool : List Char → List Char → Bool
  | [], _ => true
  | _ :: _, [] => false
  | a :: as, b :: bs => a == b && listPrefixBool as bs

def strStartsWith (s pre : String) : Bool :=
  listPrefixBool pre.data s.data

/-- Python `sep.join`. -/
def joinWith (sep : String) : List String → String
  | [] => ""
  | [x] => x
  | x :: y :: xs => x ++ sep ++ joinWith sep (y :: xs)

/-- Index of the first occurrence of `c`, if any (`str.find` before the
`-1` encoding). -/
def firstIdx (c : Char) : List Char → Option Nat
  | [] => none
  | x :: xs => if x = c then some 0 else (firstIdx c xs).map (· + 1)

/-- Index of the last occurrence of `c`, if any (`str.rfind` before the
`-1` encoding). -/
def lastIdx (c : Char) : List Char → Option Nat
  | [] => none
  | x :: xs =>
      match lastIdx c xs with
      | some n => some (n + 1)
      | none => if x = c then some 0 else none

/-- Python `str.find`: first index, or `-1`. -/
def pyFind (s : String) (c : Char) : Int :=
  match firstIdx c s.data with
  | some n => (n : Int)
  | none => -1

/-- Python `str.rfind`: last index, or `-1`. -/
def pyRfind (s : String) (c : Char) : Int :=
  match lastIdx c s.data with
  | some n => (n : Int)
  | none => -1

/-- Normalise a Python slice bound: negative indices count from the end. -/
def pyIdx (n : Nat) (i : Int) : Int :=
  if i < 0 then i + n else i

/-- Clamp a normalised slice bound into `[0, n]`. -/
def pyClamp (n : Nat) (i : Int) : Nat :=
  (max 0 (min i (n : Int))).toNat

/-- Python slice `l[a:b]` with full negative-index and clamping
semantics. -/
def pySlice (l : List Char) (a b : Int) : List Char :=
  let n := l.length
  (l.take (pyClamp n (pyIdx n b))).drop (pyClamp n (pyIdx n a))

/-- Model of `verify_text[start:end+1]` where `start = verify_text.find("{")` and
`end = verify_text.rfind("}")` (lines 146-148 of the script; the slice is
taken even when one of the indices is `-1`, exactly as in the source). -/
def extractBraces (text : String) : String :=
  String.mk (pySlice text.data (pyFind text lbrace) (pyRfind text rbrace + 1))

/-- The synthetic verdict substituted when `json.loads` fails
(line 150). -/
def syntheticVerdict : List (String × Json) :=
  [("verdict", Json.str "NONPASS"),
   ("reasons", Json.arr [Json.str "Reviewer output was not valid JSON"]),
   ("required_changes", Json.arr [])]

/-- Lines 145-150: extract the text between the first `{` and the last
`}`, hand it to the (external) JSON parser, and fall back to the
synthetic NONPASS verdict when parsing raises.  Whenever the parser
succeeds on such a slice the decoded value is a JSON object, so the
parser oracle is typed as returning the object's field list. -/
def parseVerdict (parse : String → Option (List (String × Json)))
    (text : String) : List (String × Json) :=
  match parse (extractBraces text) with
  | some d => d
  | none => syntheticVerdict

/-- Line 154: `verify_json.get("verdict") == "PASS"`.  Python equality of
the looked-up value (or `None`) with the string literal: it holds exactly
when the value is the string `"PASS"`. -/
def passCheck (d : List (String × Json)) : Bool :=
  match dictGet d "verdict" with
  | some (Json.str s) => s == "PASS"
  | _ => false

/-- Line 177: `verify_json.get("required_changes", [])`. -/
def requiredOf (d : List (String × Json)) : Json :=
  (dictGet d "required_changes").getD (Json.arr [])

mutual

/-- Python `repr()` on a decoded JSON value (quote-escaping inside the
`repr` of strings is not modelled; no claim depends on it). -/
def pyRepr : Json → String
  | Json.null => "None"
  | Json.bool true => "True"
  | Json.bool false => "False"
  | Json.num n => toString n
  | Json.str s => "\x27" ++ s ++ "\x27"
  | Json.arr xs => "[" ++ joinWith ", " (pyReprList xs) ++ "]"
  | Json.obj fs =>
      String.mk [lbrace] ++ joinWith ", " (pyReprFields fs) ++ String.mk [rbrace]

def pyReprList : List Json → List String
  | [] => []
  | x :: xs => pyRepr x :: pyReprList xs

def pyReprFields : List (String × Json) → List String
  | [] => []
  | (k, v) :: fs => ("\x27" ++ k ++ "\x27: " ++ pyRepr v) :: pyReprFields fs

end

/-- Python `str()` on a decoded JSON value, as used by the f-string
`f"- {x}"`; containers print with `repr` of their elements. -/
def pyStr : Json → String
  | Json.null => "None"
  | Json.bool true => "True"
  | Json.bool false => "False"
  | Json.num n => toString n
  | Json.str s => s
  | Json.arr xs => "[" ++ joinWith ", " (pyReprList xs) ++ "]"
  | Json.obj fs =>
      String.mk [lbrace] ++ joinWith ", " (pyReprFields fs) ++ String.mk [rbrace]

/-- Line 178: `[f"- {x}" for x in required]`.  `none` models the
`TypeError` Python raises when `required` is not iterable (a number,
boolean or `None`); iterating a string yields its characters and
iterating a dict yields its keys. -/
def pyBullets : Json → Option (List String)
  | Json.arr xs => some (xs.map fun x => "- " ++ pyStr x)
  | Json.str s => some (s.data.map fun c => "- " ++ String.mk [c])
  | Json.obj fs => some (fs.map fun p => "- " ++ p.1)
  | _ => none

/-- The feedback section appended to the plan on a reviewed NONPASS
iteration (line 178). -/
def feedbackSection (bl : List String) : String :=
  "\n\n---\n\n## Reviewer required changes\n" ++ joinWith "\n" bl

/-- State of the working tree, the single mutable shared resource.
`git reset --hard` restores `baseline` (the HEAD revision); a successful
`git apply` of `d` on top of the baseline gives `patched d`. -/
inductive WTree where
  | start : WTree
  | baseline : WTree
  | patched : String → WTree
deriving DecidableEq

/-- Observable actions of one run: calls to the generation service, the
patch store (`git reset` / `git apply` and the two read-only diff
inspections) and the review service, file writes, and the courtesy
sleep.  `applyCall` records the tree state at the moment `git apply`
runs. -/
inductive Event where
  | genCall : Nat → Event
  | resetCall : Nat → Event
  | applyCall : Nat → WTree → String → Event
  | filesCall : Nat → Event
  | diffCall : Nat → Event
  | reviewCall : Nat → Event
  | writePatch : Nat → String → Event
  | writeVerify : Nat → List (String × Json) → Event
  | writePlan : String → Event
  | writeReport : String → Event
  | sleepCall : Nat → Event

/-- The iteration index of an external GenerationService / PatchStore /
ReviewService call, `none` for file writes and sleeps. -/
def callIdx : Event → Option Nat
  | Event.genCall i => some i
  | Event.resetCall i => some i
  | Event.applyCall i _ _ => some i
  | Event.filesCall i => some i
  | Event.diffCall i => some i
  | Event.reviewCall i => some i
  | _ => none

/-- Is this event the write of `report.md`? -/
def isReport : Event → Bool
  | Event.writeReport _ => true
  | _ => false

/-- Environment of external collaborators: the change request and git
introspection outputs, the three AI-service call results per use
(`Except.error` models a transport/HTTP exception from `requests` /
`raise_for_status`), the per-iteration success of `git apply`, the
`json.loads` oracle, and `MAX_ITERS`. -/
structure Env where
  prReq : String
  repoStatus : String
  repoHead : String
  planResp : Except String String
  genResp : Nat → Except String String
  applyOk : Nat → Bool
  filesOut : Nat → String
  diffOut : Nat → String
  reviewResp : Nat → Except String String
  parse : String → Option (List (String × Json))
  maxIters : Nat

/-- Line 123: `sh("git diff --name-only") or "(none)"`. -/
def changedOf (env : Env) (i : Nat) : String :=
  if env.filesOut i = "" then "(none)" else env.filesOut i

/-- The PASS report f-string (lines 156-171), split at the chunks the
f-string interpolates. -/
def passReportStr (i : Nat) (plan changed : String) : String :=
  "# AI Staff Report\n\n## Verdict\n" ++
  ("PASS (iteration " ++ toString i ++ ")") ++
  "\n\n## Plan\n" ++ plan ++
  "\n\n## Summary of changes\nChanged files:\n" ++ changed ++
  "\n\n## Notes\n- Patch saved to `patch.diff`\n- Reviewer details saved to `verify.json`\n"

/-- The exhaustion report f-string (lines 185-195). -/
def exhaustReportStr (maxIters : Nat) (plan : String) : String :=
  "# AI Staff Report\n\n## Verdict\n" ++
  ("NONPASS (exhausted " ++ toString maxIters ++ " iterations)") ++
  "\n\n## Last Plan\n" ++ plan ++
  "\n\n## Reviewer details\nSee `verify.json`.\n"

/-- The `verify.json` content on the no-diff defensive path (line 110). -/
def noDiffVerdict : List (String × Json) :=
  [("verdict", Json.str "NONPASS"),
   ("reason", Json.str "Codex did not return a unified diff")]

/-- The `verify.json` content on the apply-failure path (line 118). -/
def applyFailVerdict : List (String × Json) :=
  [("verdict", Json.str "NONPASS"),
   ("reason", Json.str "Patch failed to apply")]

/-- Loop-carried state: the current plan text and the working tree. -/
structure IterState where
  plan : String
  tree : WTree
deriving DecidableEq

/-- Result of one loop body execution: `next` continues to the following
iteration, `done` is the PASS `return`, `crash` is an uncaught Python
exception propagating out of `main`. -/
inductive StepRes where
  | next : IterState → StepRes
  | done : String → StepRes
  | crash : String → StepRes

/-- Events of lines 115-116: `git reset --hard`, then `apply_patch`
(which first writes `patch.diff`, then runs `git apply`).  The
`applyCall` records that the tree is at the just-reset baseline. -/
def applyEvs (i : Nat) (diff : String) : List Event :=
  [Event.genCall i, Event.resetCall i, Event.writePatch i diff,
   Event.applyCall i WTree.baseline diff]

/-- Events up to and including the failed-apply `verify.json` write. -/
def applyFailEvs (i : Nat) (diff : String) : List Event :=
  applyEvs i diff ++ [Event.writeVerify i applyFailVerdict]

/-- Events up to and including the review call (lines 123-143). -/
def reviewEvs (i : Nat) (diff : String) : List Event :=
  applyEvs i diff ++ [Event.filesCall i, Event.diffCall i, Event.reviewCall i]

/-- Events of a PASS iteration. -/
def passEvs (i : Nat) (diff : String) (vj : List (String × Json))
    (report : String) : List Event :=
  reviewEvs i diff ++ [Event.writeVerify i vj, Event.writeReport report]

/-- Events of a reviewed NONPASS iteration. -/
def nonpassEvs (i : Nat) (diff : String) (vj : List (String × Json))
    (newPlan : String) : List Event :=
  reviewEvs i diff ++
    [Event.writeVerify i vj, Event.writePlan newPlan, Event.sleepCall i]

/-- Events of an iteration that crashes iterating a non-iterable
`required_changes` value. -/
def typeErrEvs (i : Nat) (diff : String) (vj : List (String × Json)) :
    List Event :=
  reviewEvs i diff ++ [Event.writeVerify i vj]

/-- One execution of the loop body (lines 91-182) at iteration `i`,
returning the emitted events and how the body ended. -/
def iterate (env : Env) (i : Nat) (st : IterState) : List Event × StepRes :=
  match env.genResp i with
  | Except.error e => ([Event.genCall i], StepRes.crash e)
  | Except.ok diff =>
    if strStartsWith diff "diff --git" = false then
      ([Event.genCall i, Event.writeVerify i noDiffVerdict], StepRes.next st)
    else if env.applyOk i = false then
      (applyFailEvs i diff, StepRes.next ⟨st.plan, WTree.baseline⟩)
    else
      match env.reviewResp i with
      | Except.error e => (reviewEvs i diff, StepRes.crash e)
      | Except.ok vtext =>
        let vj := parseVerdict env.parse vtext
        if passCheck vj then
          let report := passReportStr i st.plan (changedOf env i)
          (passEvs i diff vj report, StepRes.done report)
        else
          match pyBullets (requiredOf vj) with
          | none => (typeErrEvs i diff vj, StepRes.crash "TypeError")
          | some bl =>
            let newPlan := st.plan ++ feedbackSection bl
            (nonpassEvs i diff vj newPlan,
             StepRes.next ⟨newPlan, WTree.patched diff⟩)

/-- Terminal observation of a run: the PASS `return` with its report,
loop exhaustion with its report, or an uncaught exception. -/
inductive RunResult where
  | passed : Nat → String → RunResult
  | exhausted : String → RunResult
  | crashed : String → RunResult

/-- The `for i in range(1, MAX_ITERS + 1)` loop (starting at iteration
`i` with `fuel` iterations left) followed by the exhaustion report of
lines 184-196. -/
def runFrom (env : Env) : Nat → Nat → IterState → List Event × RunResult
  | _, 0, st =>
      let rep := exhaustReportStr env.maxIters st.plan
      ([Event.writeReport rep], RunResult.exhausted rep)
  | i, fuel + 1, st =>
      match iterate env i st with
      | (evs, StepRes.done report) => (evs, RunResult.passed i report)
      | (evs, StepRes.crash e) => (evs, RunResult.crashed e)
      | (evs, StepRes.next st') =>
          let rest := runFrom env (i + 1) fuel st'
          (evs ++ rest.1, rest.2)

/-- Model of `main()`: seed the plan from the planning call (whose failure aborts
the run before the loop), write `plan.md`, then run the loop. -/
def mainRun (env : Env) : List Event × RunResult :=
  match env.planResp with
  | Except.error e => ([], RunResult.crashed e)
  | Except.ok plan0 =>
      let rest := runFrom env 1 env.maxIters ⟨plan0, WTree.start⟩
      (Event.writePlan plan0 :: rest.1, rest.2)

/-- The loop state after `k` further completed (non-terminating,
non-crashing) iterations, starting at iteration `i` in state `st`. -/
def reachFrom (env : Env) : Nat → IterState → Nat → Option IterState
  | _, st, 0 => some st
  | i, st, k + 1 =>
      match (iterate env i st).2 with
      | StepRes.next st' => reachFrom env (i + 1) st' k
      | _ => none

/-- A well-formed generated diff used by the concrete environments. -/
def dGit : String := "diff --git a/f.txt b/f.txt"

/-- Concrete environment in which iteration 1 is reviewed PASS. -/
def envPass : Env :=
  { prReq := "add a health endpoint"
    repoStatus := "(clean)"
    repoHead := "abc1234"
    planResp := Except.ok "P"
    genResp := fun _ => Except.ok dGit
    applyOk := fun _ => true
    filesOut := fun _ => "f.txt"
    diffOut := fun _ => "d"
    reviewResp := fun _ => Except.ok "\x7bP\x7d"
    parse := fun s => if s = "\x7bP\x7d" then some [("verdict", Json.str "PASS")] else none
    maxIters := 2 }

/-- Concrete environment in which every iteration is reviewed with the
lowercase verdict "pass" (hence NONPASS), with a single iteration
budget: the run exhausts. -/
def envNp : Env :=
  { prReq := "r"
    repoStatus := "(clean)"
    repoHead := "h"
    planResp := Except.ok "P0"
    genResp := fun _ => Except.ok dGit
    applyOk := fun _ => true
    filesOut := fun _ => "zzz_changed.txt"
    diffOut := fun _ => "d"
    reviewResp := fun _ => Except.ok "\x7bN\x7d"
    parse := fun s => if s = "\x7bN\x7d" then some [("verdict", Json.str "pass")] else none
    maxIters := 1 }

/-- Concrete environment in which the iteration-1 generation call raises
a transport exception. -/
def envCrash : Env :=
  { prReq := "r"
    repoStatus := "(clean)"
    repoHead := "h"
    planResp := Except.ok "P"
    genResp := fun _ => Except.error "requests.exceptions.ConnectionError"
    applyOk := fun _ => true
    filesOut := fun _ => ""
    diffOut := fun _ => ""
    reviewResp := fun _ => Except.ok ""
    parse := fun _ => none
    maxIters := 5 }

/-- Concrete environment in which the generation service answers prose
instead of a diff. -/
def envNoDiff : Env :=
  { prReq := "r"
    repoStatus := "(clean)"
    repoHead := "h"
    planResp := Except.ok "P"
    genResp := fun _ => Except.ok "I cannot produce a diff."
    applyOk := fun _ => true
    filesOut := fun _ => "f.txt"
    diffOut := fun _ => "d"
    reviewResp := fun _ => Except.ok "\x7bN\x7d"
    parse := fun _ => none
    maxIters := 1 }

/-- Concrete parser oracle recognising the single slice used by the
extraction example. -/
def wParse : String → Option (List (String × Json)) :=
  fun s => if s = "\x7by\x7d" then some [("k", Json.null)] else none

/-- The function `firstIdx` really is the first occurrence. -/
theorem firstIdx_spec (c : Char) :
    ∀ (l : List Char) (n : Nat), firstIdx c l = some n →
      l[n]? = some c ∧ ∀ j, j < n → l[j]? ≠ some c := by
  intro l
  induction l with
  | nil => intro n h; cases h
  | cons x xs ih =>
      intro n h
      by_cases hx : x = c
      · rw [firstIdx, if_pos hx] at h
        injection h with h
        subst h
        refine ⟨by simp [hx], ?_⟩
        intro j hj
        exact absurd hj (Nat.not_lt_zero j)
      · rw [firstIdx, if_neg hx] at h
        rcases hm : firstIdx c xs with _ | m
        · rw [hm] at h; cases h
        · rw [hm] at h
          simp at h
          subst h
          obtain ⟨h1, h2⟩ := ih m hm
          refine ⟨by simpa using h1, ?_⟩
          intro j hj
          cases j with
          | zero => simp [hx]
          | succ j2 => simpa using h2 j2 (by omega)

/-- A list with no `lastIdx` has no occurrence at all. -/
theorem lastIdx_none_spec (c : Char) :
    ∀ l : List Char, lastIdx c l = none → ∀ j : Nat, l[j]? ≠ some c := by
  intro l
  induction l with
  | nil => intro _ j; simp
  | cons x xs ih =>
      intro h j
      rw [lastIdx] at h
      rcases hm : lastIdx c xs with _ | m
      · rw [hm] at h
        by_cases hx : x = c
        · rw [if_pos hx] at h; cases h
        · cases j with
          | zero => simp [hx]
          | succ j2 => simpa using ih hm j2
      · rw [hm] at h; cases h

/-- The function `lastIdx` really is the last occurrence. -/
theorem lastIdx_spec (c : Char) :
    ∀ (l : List Char) (n : Nat), lastIdx c l = some n →
      l[n]? = some c ∧ ∀ j, n < j → l[j]? ≠ some c := by
  intro l
  induction l with
  | nil => intro n h; cases h
  | cons x xs ih =>
      intro n h
      rw [lastIdx] at h
      rcases hm : lastIdx c xs with _ | m
      · rw [hm] at h
        by_cases hx : x = c
        · rw [if_pos hx] at h
          injection h with h
          subst h
          refine ⟨by simp [hx], ?_⟩
          intro j hj
          cases j with
          | zero => omega
          | succ j2 => simpa using lastIdx_none_spec c xs hm j2
        · rw [if_neg hx] at h; cases h
      · rw [hm] at h
        injection h with h
        subst h
        obtain ⟨h1, h2⟩ := ih m hm
        refine ⟨by simpa using h1, ?_⟩
        intro j hj
        cases j with
        | zero => omega
        | succ j2 => simpa using h2 j2 (by omega)

/-- When the text has both braces, the extracted slice is exactly the
segment from the first `\x7b` through the last `\x7d`. -/
theorem extractBraces_spec (text : String) (a b : Nat)
    (h1 : firstIdx lbrace text.data = some a)
    (h2 : lastIdx rbrace text.data = some b) :
    (extractBraces text).data = (text.data.take (b + 1)).drop a := by
  have ha := (firstIdx_spec lbrace text.data a h1).1
  have hb := (lastIdx_spec rbrace text.data b h2).1
  have haLt : a < text.data.length := by
    by_contra hc
    rw [List.getElem?_eq_none (by omega)] at ha
    cases ha
  have hbLt : b < text.data.length := by
    by_contra hc
    rw [List.getElem?_eq_none (by omega)] at hb
    cases hb
  have e1 : pyClamp text.data.length
      (pyIdx text.data.length ((a : Nat) : Int)) = a := by
    unfold pyClamp pyIdx
    rw [if_neg (by omega)]
    rw [min_eq_left (by omega), max_eq_right (by omega)]
    omega
  have e2 : pyClamp text.data.length
      (pyIdx text.data.length (((b : Nat) : Int) + 1)) = b + 1 := by
    unfold pyClamp pyIdx
    rw [if_neg (by omega)]
    rw [min_eq_left (by omega), max_eq_right (by omega)]
    omega
  simp only [extractBraces, pySlice, pyFind, pyRfind, h1, h2]
  rw [e1, e2]

/-- Exhaustive shape analysis of one loop-body execution: exactly one of
the seven control paths of lines 91-182 is taken. -/
theorem iterate_cases (env : Env) (i : Nat) (st : IterState) :
    (∃ e, env.genResp i = Except.error e ∧
      iterate env i st = ([Event.genCall i], StepRes.crash e)) ∨
    (∃ diff, env.genResp i = Except.ok diff ∧
      strStartsWith diff "diff --git" = false ∧
      iterate env i st =
        ([Event.genCall i, Event.writeVerify i noDiffVerdict], StepRes.next st)) ∨
    (∃ diff, env.genResp i = Except.ok diff ∧
      strStartsWith diff "diff --git" = true ∧ env.applyOk i = false ∧
      iterate env i st =
        (applyFailEvs i diff, StepRes.next ⟨st.plan, WTree.baseline⟩)) ∨
    (∃ diff e, env.genResp i = Except.ok diff ∧
      strStartsWith diff "diff --git" = true ∧ env.applyOk i = true ∧
      env.reviewResp i = Except.error e ∧
      iterate env i st = (reviewEvs i diff, StepRes.crash e)) ∨
    (∃ diff vtext, env.genResp i = Except.ok diff ∧
      strStartsWith diff "diff --git" = true ∧ env.applyOk i = true ∧
      env.reviewResp i = Except.ok vtext ∧
      passCheck (parseVerdict env.parse vtext) = true ∧
      iterate env i st =
        (passEvs i diff (parseVerdict env.parse vtext)
           (passReportStr i st.plan (changedOf env i)),
         StepRes.done (passReportStr i st.plan (changedOf env i)))) ∨
    (∃ diff vtext, env.genResp i = Except.ok diff ∧
      strStartsWith diff "diff --git" = true ∧ env.applyOk i = true ∧
      env.reviewResp i = Except.ok vtext ∧
      passCheck (parseVerdict env.parse vtext) = false ∧
      pyBullets (requiredOf (parseVerdict env.parse vtext)) = none ∧
      iterate env i st =
        (typeErrEvs i diff (parseVerdict env.parse vtext),
         StepRes.crash "TypeError")) ∨
    (∃ diff vtext bl, env.genResp i = Except.ok diff ∧
      strStartsWith diff "diff --git" = true ∧ env.applyOk i = true ∧
      env.reviewResp i = Except.ok vtext ∧
      passCheck (parseVerdict env.parse vtext) = false ∧
      pyBullets (requiredOf (parseVerdict env.parse vtext)) = some bl ∧
      iterate env i st =
        (nonpassEvs i diff (parseVerdict env.parse vtext)
           (st.plan ++ feedbackSection bl),
         StepRes.next ⟨st.plan ++ feedbackSection bl, WTree.patched diff⟩)) := by
  rcases hg : env.genResp i with e | diff
  · exact Or.inl ⟨e, rfl, by unfold iterate; rw [hg]⟩
  · by_cases hd : strStartsWith diff "diff --git" = false
    · exact Or.inr (Or.inl ⟨diff, rfl, hd, by unfold iterate; rw [hg]; simp [hd]⟩)
    · have hd' : strStartsWith diff "diff --git" = true := by
        revert hd; cases strStartsWith diff "diff --git" <;> simp
      by_cases ha : env.applyOk i = false
      · exact Or.inr (Or.inr (Or.inl ⟨diff, rfl, hd', ha,
          by unfold iterate; rw [hg]; simp [hd, ha]⟩))
      · have ha' : env.applyOk i = true := by
          revert ha; cases env.applyOk i <;> simp
        rcases hr : env.reviewResp i with e | vtext
        · exact Or.inr (Or.inr (Or.inr (Or.inl ⟨diff, e, rfl, hd', ha', rfl,
            by unfold iterate; rw [hg, hr]; simp [hd, ha]⟩)))
        · by_cases hp : passCheck (parseVerdict env.parse vtext) = true
          · exact Or.inr (Or.inr (Or.inr (Or.inr (Or.inl ⟨diff, vtext, rfl, hd',
              ha', rfl, hp, by unfold iterate; rw [hg, hr]; simp [hd, ha, hp]⟩))))
          · have hp' : passCheck (parseVerdict env.parse vtext) = false := by
              revert hp; cases passCheck (parseVerdict env.parse vtext) <;> simp
            rcases hb : pyBullets (requiredOf (parseVerdict env.parse vtext)) with _ | bl
            · exact Or.inr (Or.inr (Or.inr (Or.inr (Or.inr (Or.inl ⟨diff, vtext,
                rfl, hd', ha', rfl, hp', hb,
                by unfold iterate; rw [hg, hr]; simp [hd, ha, hp', hb]⟩)))))
            · exact Or.inr (Or.inr (Or.inr (Or.inr (Or.inr (Or.inr ⟨diff, vtext,
                bl, rfl, hd', ha', rfl, hp', hb,
                by unfold iterate; rw [hg, hr]; simp [hd, ha, hp', hb]⟩)))))

/-- String append acts as list append on the underlying data. -/
theorem strData_append (a b : String) : (a ++ b).data = a.data ++ b.data := by
  cases a; cases b; rfl

theorem strLength_append (a b : String) : (a ++ b).length = a.length + b.length := by
  cases a; cases b; simp [String.length, String.append]

theorem strLength_mono {a b : String} (h : a.data <+: b.data) :
    a.length ≤ b.length := by
  cases a; cases b; exact h.length_le

theorem strIn_self (s : String) : s.data <:+: s.data := ⟨[], [], by simp⟩

theorem strIn_appendOfLeft {sub a : String} (h : sub.data <:+: a.data)
    (b : String) : sub.data <:+: (a ++ b).data := by
  rw [strData_append]
  exact h.trans ⟨[], b.data, by simp⟩

theorem strIn_appendOfRight {sub b : String} (a : String)
    (h : sub.data <:+: b.data) : sub.data <:+: (a ++ b).data := by
  rw [strData_append]
  exact h.trans ⟨a.data, [], by simp⟩

/-- The PASS report contains its verdict line, the plan, the changed-file
list, and the pointers to `patch.diff` and `verify.json`. -/
theorem passReport_parts (i : Nat) (p c : String) :
    ("PASS (iteration " ++ toString i ++ ")").data <:+: (passReportStr i p c).data ∧
    p.data <:+: (passReportStr i p c).data ∧
    c.data <:+: (passReportStr i p c).data ∧
    "patch.diff".data <:+: (passReportStr i p c).data ∧
    "verify.json".data <:+: (passReportStr i p c).data := by
  unfold passReportStr
  refine ⟨?_, ?_, ?_, ?_, ?_⟩
  · exact strIn_appendOfLeft (strIn_appendOfLeft (strIn_appendOfLeft
      (strIn_appendOfLeft (strIn_appendOfLeft (strIn_appendOfRight _
        (strIn_self _)) _) _) _) _) _
  · exact strIn_appendOfLeft (strIn_appendOfLeft (strIn_appendOfLeft
      (strIn_appendOfRight _ (strIn_self _)) _) _) _
  · exact strIn_appendOfLeft (strIn_appendOfRight _ (strIn_self _)) _
  · exact strIn_appendOfRight _ (by decide)
  · exact strIn_appendOfRight _ (by decide)

/-- The exhaustion report contains its verdict line, the final plan and
the pointer to `verify.json` (it has no changed-file section). -/
theorem exhaustReport_parts (n : Nat) (p : String) :
    ("NONPASS (exhausted " ++ toString n ++ " iterations)").data <:+:
        (exhaustReportStr n p).data ∧
    p.data <:+: (exhaustReportStr n p).data ∧
    "verify.json".data <:+: (exhaustReportStr n p).data := by
  unfold exhaustReportStr
  refine ⟨?_, ?_, ?_⟩
  · exact strIn_appendOfLeft (strIn_appendOfLeft (strIn_appendOfLeft
      (strIn_appendOfRight _ (strIn_self _)) _) _) _
  · exact strIn_appendOfLeft (strIn_appendOfRight _ (strIn_self _)) _
  · exact strIn_appendOfRight _ (by decide)

/-- Every service/patch-store call emitted by one loop-body execution
carries that iteration's index. -/
theorem iterate_callIdx (env : Env) (i : Nat) (st : IterState) :
    ∀ e ∈ (iterate env i st).1, callIdx e = none ∨ callIdx e = some i := by
  rcases iterate_cases env i st with
      ⟨e, _, hE⟩ | ⟨d, _, _, hE⟩ | ⟨d, _, _, _, hE⟩ | ⟨d, e, _, _, _, _, hE⟩ |
      ⟨d, v, _, _, _, _, _, hE⟩ | ⟨d, v, _, _, _, _, _, _, hE⟩ |
      ⟨d, v, bl, _, _, _, _, _, _, hE⟩ <;>
    rw [hE] <;>
    simp [callIdx, applyFailEvs, applyEvs, reviewEvs, passEvs, nonpassEvs, typeErrEvs]

/-- Within one loop-body execution, every `git apply` happens on the
just-reset baseline tree, and a reset of the same iteration is among the
emitted events. -/
theorem iterate_apply_reset (env : Env) (i : Nat) (st : IterState) :
    ∀ (j : Nat) (t : WTree) (d : String),
      Event.applyCall j t d ∈ (iterate env i st).1 →
      t = WTree.baseline ∧ Event.resetCall j ∈ (iterate env i st).1 := by
  rcases iterate_cases env i st with
      ⟨e, _, hE⟩ | ⟨d, _, _, hE⟩ | ⟨d, _, _, _, hE⟩ | ⟨d, e, _, _, _, _, hE⟩ |
      ⟨d, v, _, _, _, _, _, hE⟩ | ⟨d, v, _, _, _, _, _, _, hE⟩ |
      ⟨d, v, bl, _, _, _, _, _, _, hE⟩ <;>
    rw [hE] <;>
    intro j t dd hm <;>
    simp [applyFailEvs, applyEvs, reviewEvs, passEvs, nonpassEvs, typeErrEvs] at hm ⊢ <;>
    obtain ⟨rfl, rfl, rfl⟩ := hm <;>
    simp

/-- One loop-body execution only ever extends the plan. -/
theorem iterate_next_plan (env : Env) (i : Nat) (st st' : IterState)
    (h : (iterate env i st).2 = StepRes.next st') :
    st.plan.data <+: st'.plan.data := by
  rcases iterate_cases env i st with
      ⟨e, _, hE⟩ | ⟨d, _, _, hE⟩ | ⟨d, _, _, _, hE⟩ | ⟨d, e, _, _, _, _, hE⟩ |
      ⟨d, v, _, _, _, _, _, hE⟩ | ⟨d, v, _, _, _, _, _, _, hE⟩ |
      ⟨d, v, bl, _, _, _, _, _, _, hE⟩ <;>
    rw [hE] at h <;>
    simp at h
  · obtain rfl := h
    exact ⟨[], by simp⟩
  · obtain rfl := h
    exact ⟨[], by simp⟩
  · obtain rfl := h
    exact ⟨(feedbackSection bl).data, (strData_append _ _).symm⟩

/-- The only report a loop-body execution can write is the PASS report
for the current iteration, built from the current plan and changed-file
list. -/
theorem iterate_report (env : Env) (i : Nat) (st : IterState) :
    ∀ rep, Event.writeReport rep ∈ (iterate env i st).1 →
      rep = passReportStr i st.plan (changedOf env i) := by
  rcases iterate_cases env i st with
      ⟨e, _, hE⟩ | ⟨d, _, _, hE⟩ | ⟨d, _, _, _, hE⟩ | ⟨d, e, _, _, _, _, hE⟩ |
      ⟨d, v, _, _, _, _, _, hE⟩ | ⟨d, v, _, _, _, _, _, _, hE⟩ |
      ⟨d, v, bl, _, _, _, _, _, _, hE⟩ <;>
    rw [hE] <;>
    intro rep hm <;>
    simp [applyFailEvs, applyEvs, reviewEvs, passEvs, nonpassEvs, typeErrEvs] at hm <;>
    exact hm

/-- Apply-happens-on-baseline, lifted to the whole bounded loop. -/
theorem runFrom_applyCall (env : Env) :
    ∀ (fuel i : Nat) (st : IterState) (j : Nat) (t : WTree) (d : String),
      Event.applyCall j t d ∈ (runFrom env i fuel st).1 →
      t = WTree.baseline ∧ Event.resetCall j ∈ (runFrom env i fuel st).1 := by
  intro fuel
  induction fuel with
  | zero =>
      intro i st j t d hm
      simp [runFrom] at hm
  | succ fuel ih =>
      intro i st j t d hm
      rcases hI : iterate env i st with ⟨evs, res⟩
      rcases res with st' | rep | e <;>
        simp only [runFrom, hI] at hm ⊢
      · rcases List.mem_append.1 hm with hl | hr
        · have h2 := iterate_apply_reset env i st j t d (by rw [hI]; exact hl)
          refine ⟨h2.1, List.mem_append.2 (Or.inl ?_)⟩
          have h3 := h2.2
          rw [hI] at h3
          exact h3
        · have h2 := ih (i + 1) st' j t d hr
          exact ⟨h2.1, List.mem_append.2 (Or.inr h2.2)⟩
      · have h2 := iterate_apply_reset env i st j t d (by rw [hI]; exact hm)
        refine ⟨h2.1, ?_⟩
        have h3 := h2.2
        rw [hI] at h3
        exact h3
      · have h2 := iterate_apply_reset env i st j t d (by rw [hI]; exact hm)
        refine ⟨h2.1, ?_⟩
        have h3 := h2.2
        rw [hI] at h3
        exact h3

/-- Every report the bounded loop writes is either a PASS report or the
exhaustion report for `MAX_ITERS`. -/
theorem runFrom_report (env : Env) :
    ∀ (fuel i : Nat) (st : IterState) (rep : String),
      Event.writeReport rep ∈ (runFrom env i fuel st).1 →
      (∃ j p c, rep = passReportStr j p c) ∨
      (∃ p, rep = exhaustReportStr env.maxIters p) := by
  intro fuel
  induction fuel with
  | zero =>
      intro i st rep hm
      simp [runFrom] at hm
      exact Or.inr ⟨st.plan, hm⟩
  | succ fuel ih =>
      intro i st rep hm
      rcases hI : iterate env i st with ⟨evs, res⟩
      rcases res with st' | r | e <;>
        simp only [runFrom, hI] at hm
      · rcases List.mem_append.1 hm with hl | hr
        · exact Or.inl ⟨i, st.plan, changedOf env i,
            iterate_report env i st rep (by rw [hI]; exact hl)⟩
        · exact ih (i + 1) st' rep hr
      · exact Or.inl ⟨i, st.plan, changedOf env i,
          iterate_report env i st rep (by rw [hI]; exact hm)⟩
      · exact Or.inl ⟨i, st.plan, changedOf env i,
          iterate_report env i st rep (by rw [hI]; exact hm)⟩

/-- If the loop completes `k` iterations and iteration `i + k` returns
with a PASS report, the bounded loop's result is that PASS at index
`i + k` and every emitted call belongs to an iteration `≤ i + k`. -/
theorem runFrom_reach_done (env : Env) :
    ∀ (k i : Nat) (st s : IterState) (evs : List Event) (r : String) (fuel : Nat),
      reachFrom env i st k = some s →
      iterate env (i + k) s = (evs, StepRes.done r) →
      k < fuel →
      (runFrom env i fuel st).2 = RunResult.passed (i + k) r ∧
      ∀ e ∈ (runFrom env i fuel st).1, ∀ j, callIdx e = some j → j ≤ i + k := by
  intro k
  induction k with
  | zero =>
      intro i st s evs r fuel h hIt hf
      simp [reachFrom] at h
      subst h
      rw [Nat.add_zero] at hIt
      rcases fuel with _ | fuel
      · omega
      · constructor
        · simp only [runFrom, hIt, Nat.add_zero]
        · intro e he j hj
          simp only [runFrom, hIt] at he
          rcases iterate_callIdx env i st e (by rw [hIt]; exact he) with h0 | h0
          · rw [h0] at hj; cases hj
          · rw [h0] at hj
            injection hj with hj
            omega
  | succ k ih =>
      intro i st s evs r fuel h hIt hf
      rcases hI : iterate env i st with ⟨evs0, res⟩
      rcases res with st' | rep | e <;>
        simp only [reachFrom, hI] at h
      · rcases fuel with _ | fuel
        · omega
        · have hidx : i + 1 + k = i + (k + 1) := by omega
          have hIt' : iterate env (i + 1 + k) s = (evs, StepRes.done r) := by
            rw [hidx]; exact hIt
          have h2 := ih (i + 1) st' s evs r fuel h hIt' (by omega)
          constructor
          · simp only [runFrom, hI]
            rw [h2.1, hidx]
          · intro e he j hj
            simp only [runFrom, hI] at he
            rcases List.mem_append.1 he with hl | hr
            · rcases iterate_callIdx env i st e (by rw [hI]; exact hl) with h0 | h0
              · rw [h0] at hj; cases hj
              · rw [h0] at hj
                injection hj with hj
                omega
            · have := h2.2 e hr j hj
              omega
      · exact Option.noConfusion h
      · exact Option.noConfusion h

/-- If the loop completes all `fuel` remaining iterations without a PASS
or a crash, the bounded loop exhausts, writing the exhaustion report
with the final plan. -/
theorem runFrom_reach_exhaust (env : Env) :
    ∀ (fuel i : Nat) (st s : IterState),
      reachFrom env i st fuel = some s →
      (runFrom env i fuel st).2 =
        RunResult.exhausted (exhaustReportStr env.maxIters s.plan) ∧
      Event.writeReport (exhaustReportStr env.maxIters s.plan) ∈
        (runFrom env i fuel st).1 := by
  intro fuel
  induction fuel with
  | zero =>
      intro i st s h
      simp [reachFrom] at h
      subst h
      simp [runFrom]
  | succ fuel ih =>
      intro i st s h
      rcases hI : iterate env i st with ⟨evs0, res⟩
      rcases res with st' | rep | e <;>
        simp only [reachFrom, hI] at h
      · have h2 := ih (i + 1) st' s h
        constructor
        · simp only [runFrom, hI]
          exact h2.1
        · simp only [runFrom, hI]
          exact List.mem_append.2 (Or.inr h2.2)
      · exact Option.noConfusion h
      · exact Option.noConfusion h

/-- C3: when the generation response does not start with the literal
"diff --git" header, the iteration performs no reset/apply and no
files/diff/review call, records a NONPASS `verify.json` whose reason
names the missing diff, and continues to the next iteration with the
loop state unchanged. -/
theorem c3_nodiff_short_circuit (env : Env) (i : Nat) (st : IterState)
    (diff : String)
    (hg : env.genResp i = Except.ok diff)
    (hd : strStartsWith diff "diff --git" = false) :
    iterate env i st =
      ([Event.genCall i, Event.writeVerify i noDiffVerdict], StepRes.next st) ∧
    dictGet noDiffVerdict "verdict" = some (Json.str "NONPASS") ∧
    dictGet noDiffVerdict "reason" =
      some (Json.str "Codex did not return a unified diff") := by
  refine ⟨?_, rfl, rfl⟩
  unfold iterate
  rw [hg]
  simp [hd]

/-- C3 witness: the concrete prose answer of `envNoDiff` takes the
short-circuit path. -/
theorem c3_witness :
    iterate envNoDiff 1 ⟨"P", WTree.start⟩ =
      ([Event.genCall 1, Event.writeVerify 1 noDiffVerdict],
       StepRes.next ⟨"P", WTree.start⟩) ∧
    dictGet noDiffVerdict "verdict" = some (Json.str "NONPASS") ∧
    dictGet noDiffVerdict "reason" =
      some (Json.str "Codex did not return a unified diff") :=
  c3_nodiff_short_circuit envNoDiff 1 ⟨"P", WTree.start⟩
    "I cannot produce a diff." rfl rfl

/-- C5: along any realised run, the plan after one more completed
iteration extends the plan before it: the old plan is a prefix of the
new one and the length never decreases. -/
theorem c5_plan_append_only (env : Env) :
    ∀ (k i : Nat) (st s s' : IterState),
      reachFrom env i st k = some s →
      reachFrom env i st (k + 1) = some s' →
      s.plan.data <+: s'.plan.data ∧ s.plan.length ≤ s'.plan.length := by
  intro k
  induction k with
  | zero =>
      intro i st s s' h h'
      simp [reachFrom] at h
      subst h
      rcases hI : (iterate env i st).2 with st0 | rep | e <;>
        simp only [reachFrom, hI] at h'
      · simp [reachFrom] at h'
        subst h'
        have hpre := iterate_next_plan env i st st0 hI
        exact ⟨hpre, strLength_mono hpre⟩
      · exact Option.noConfusion h'
      · exact Option.noConfusion h'
  | succ k ih =>
      intro i st s s' h h'
      rcases hI : (iterate env i st).2 with st0 | rep | e <;>
        simp only [reachFrom, hI] at h h'
      · exact ih (i + 1) st0 s s' h h'
      · exact Option.noConfusion h
      · exact Option.noConfusion h

/-- C5 witness: one reviewed-NONPASS iteration of `envNp` extends the
plan "P0". -/
theorem c5_witness :
    (⟨"P0", WTree.start⟩ : IterState).plan.data <+:
      (⟨"P0" ++ feedbackSection [], WTree.patched dGit⟩ : IterState).plan.data ∧
    (⟨"P0", WTree.start⟩ : IterState).plan.length ≤
      (⟨"P0" ++ feedbackSection [], WTree.patched dGit⟩ : IterState).plan.length :=
  c5_plan_append_only envNp 0 1 ⟨"P0", WTree.start⟩ ⟨"P0", WTree.start⟩
    ⟨"P0" ++ feedbackSection [], WTree.patched dGit⟩ rfl rfl

/-- C6: the reviewer verdict is obtained by slicing the response from
the first opening brace through the last closing brace and handing the
slice to the JSON parser; if the parser fails the synthetic NONPASS
verdict with an empty required-changes list is substituted, so the step
always yields a well-formed verdict. -/
theorem c6_verdict_extraction
    (parse : String → Option (List (String × Json))) (text : String) :
    (∀ a b : Nat, firstIdx lbrace text.data = some a →
      lastIdx rbrace text.data = some b →
      (extractBraces text).data = (text.data.take (b + 1)).drop a ∧
      text.data[a]? = some lbrace ∧ text.data[b]? = some rbrace ∧
      (∀ j, j < a → text.data[j]? ≠ some lbrace) ∧
      (∀ j, b < j → text.data[j]? ≠ some rbrace)) ∧
    (∀ d, parse (extractBraces text) = some d → parseVerdict parse text = d) ∧
    (parse (extractBraces text) = none →
      parseVerdict parse text = syntheticVerdict) ∧
    requiredOf syntheticVerdict = Json.arr [] ∧
    passCheck syntheticVerdict = false ∧
    dictGet syntheticVerdict "verdict" = some (Json.str "NONPASS") := by
  refine ⟨?_, ?_, ?_, rfl, rfl, rfl⟩
  · intro a b h1 h2
    exact ⟨extractBraces_spec text a b h1 h2, (firstIdx_spec _ _ _ h1).1,
      (lastIdx_spec _ _ _ h2).1, (firstIdx_spec _ _ _ h1).2,
      (lastIdx_spec _ _ _ h2).2⟩
  · intro d hd
    unfold parseVerdict
    rw [hd]
  · intro hn
    unfold parseVerdict
    rw [hn]

/-- C6 witness: the extraction characterisation and the
successful-parse clause at the concrete text "x\x7by\x7dz". -/
theorem c6_witness :
    ((extractBraces "x\x7by\x7dz").data =
        (("x\x7by\x7dz" : String).data.take (3 + 1)).drop 1 ∧
      ("x\x7by\x7dz" : String).data[1]? = some lbrace ∧
      ("x\x7by\x7dz" : String).data[3]? = some rbrace ∧
      (∀ j, j < 1 → ("x\x7by\x7dz" : String).data[j]? ≠ some lbrace) ∧
      (∀ j, 3 < j → ("x\x7by\x7dz" : String).data[j]? ≠ some rbrace)) ∧
    parseVerdict wParse "x\x7by\x7dz" = [("k", Json.null)] :=
  ⟨(c6_verdict_extraction wParse "x\x7by\x7dz").1 1 3 rfl rfl,
   (c6_verdict_extraction wParse "x\x7by\x7dz").2.1 [("k", Json.null)] rfl⟩

/-- C9: a reviewed NONPASS iteration unconditionally appends the
feedback section (separator, heading, one bullet per required change) to
the plan — even for an empty or absent required-changes list — so the
plan strictly grows there, while the two pre-review failure paths leave
the plan (indeed the whole loop state or its plan component) unchanged. -/
theorem c9_nonpass_growth (env : Env) (i : Nat) (st : IterState)
    (diff vtext : String) (bl : List String)
    (hg : env.genResp i = Except.ok diff)
    (hd : strStartsWith diff "diff --git" = true)
    (ha : env.applyOk i = true)
    (hr : env.reviewResp i = Except.ok vtext)
    (hnp : passCheck (parseVerdict env.parse vtext) = false)
    (hbl : pyBullets (requiredOf (parseVerdict env.parse vtext)) = some bl) :
    iterate env i st =
      (nonpassEvs i diff (parseVerdict env.parse vtext)
         (st.plan ++ feedbackSection bl),
       StepRes.next ⟨st.plan ++ feedbackSection bl, WTree.patched diff⟩) ∧
    st.plan.length < (st.plan ++ feedbackSection bl).length ∧
    (∀ xs : List Json, pyBullets (Json.arr xs) =
      some (xs.map fun x => "- " ++ pyStr x)) ∧
    (∀ (env2 : Env) (i2 : Nat) (st2 : IterState) (d2 : String),
      env2.genResp i2 = Except.ok d2 →
      strStartsWith d2 "diff --git" = false →
      (iterate env2 i2 st2).2 = StepRes.next st2) ∧
    (∀ (env3 : Env) (i3 : Nat) (st3 : IterState) (d3 : String),
      env3.genResp i3 = Except.ok d3 →
      strStartsWith d3 "diff --git" = true → env3.applyOk i3 = false →
      (iterate env3 i3 st3).2 = StepRes.next ⟨st3.plan, WTree.baseline⟩) := by
  refine ⟨?_, ?_, fun xs => rfl, ?_, ?_⟩
  · unfold iterate
    rw [hg, hr]
    simp [hd, ha, hnp, hbl]
  · have hfb : 0 < (feedbackSection bl).length := by
      unfold feedbackSection
      rw [strLength_append]
      have hsep : 0 < ("\n\n---\n\n## Reviewer required changes\n" : String).length := by
        decide
      omega
    rw [strLength_append]
    omega
  · intro env2 i2 st2 d2 h2g h2d
    unfold iterate
    rw [h2g]
    simp [h2d]
  · intro env3 i3 st3 d3 h3g h3d h3a
    unfold iterate
    rw [h3g]
    simp [h3d, h3a]

/-- C9 witness: `envNp`'s reviewed verdict has no required-changes
field, yet the (empty-bullet) feedback section is appended and the plan
strictly grows. -/
theorem c9_witness :
    iterate envNp 1 ⟨"P0", WTree.start⟩ =
      (nonpassEvs 1 dGit (parseVerdict envNp.parse "\x7bN\x7d")
         ("P0" ++ feedbackSection []),
       StepRes.next ⟨"P0" ++ feedbackSection [], WTree.patched dGit⟩) ∧
    ("P0" : String).length < ("P0" ++ feedbackSection []).length ∧
    (∀ xs : List Json, pyBullets (Json.arr xs) =
      some (xs.map fun x => "- " ++ pyStr x)) ∧
    (∀ (env2 : Env) (i2 : Nat) (st2 : IterState) (d2 : String),
      env2.genResp i2 = Except.ok d2 →
      strStartsWith d2 "diff --git" = false →
      (iterate env2 i2 st2).2 = StepRes.next st2) ∧
    (∀ (env3 : Env) (i3 : Nat) (st3 : IterState) (d3 : String),
      env3.genResp i3 = Except.ok d3 →
      strStartsWith d3 "diff --git" = true → env3.applyOk i3 = false →
      (iterate env3 i3 st3).2 = StepRes.next ⟨st3.plan, WTree.baseline⟩) :=
  c9_nonpass_growth envNp 1 ⟨"P0", WTree.start⟩ dGit "\x7bN\x7d" [] rfl rfl rfl
    rfl rfl rfl

/-- C10: once an iteration reaches review, it terminates the run as PASS
exactly when the parsed verdict's "verdict" field is the exact,
case-sensitive string "PASS"; lowercase "pass", a missing field, or a
non-string value all fail the check. -/
theorem c10_pass_case_sensitive (env : Env) (i : Nat) (st : IterState)
    (diff vtext : String)
    (hg : env.genResp i = Except.ok diff)
    (hd : strStartsWith diff "diff --git" = true)
    (ha : env.applyOk i = true)
    (hr : env.reviewResp i = Except.ok vtext) :
    ((∃ r, (iterate env i st).2 = StepRes.done r) ↔
      dictGet (parseVerdict env.parse vtext) "verdict" =
        some (Json.str "PASS")) ∧
    (∀ d, passCheck d = true ↔
      dictGet d "verdict" = some (Json.str "PASS")) ∧
    passCheck [("verdict", Json.str "pass")] = false ∧
    passCheck [] = false ∧
    passCheck [("verdict", Json.num 1)] = false ∧
    passCheck [("verdict", Json.str "PASS")] = true := by
  have hchar : ∀ d, passCheck d = true ↔
      dictGet d "verdict" = some (Json.str "PASS") := by
    intro d
    unfold passCheck
    rcases hdg : dictGet d "verdict" with _ | v
    · simp
    · rcases v with _ | b | n | s2 | xs | fs <;> simp
  refine ⟨⟨?_, ?_⟩, hchar, rfl, rfl, rfl, rfl⟩
  · rintro ⟨r, h⟩
    rcases iterate_cases env i st with
        ⟨e, _, hE⟩ | ⟨d, _, _, hE⟩ | ⟨d, _, _, _, hE⟩ | ⟨d, e, _, _, _, _, hE⟩ |
        ⟨d, v, _, _, _, hr2, hp, hE⟩ | ⟨d, v, _, _, _, _, _, _, hE⟩ |
        ⟨d, v, bl, _, _, _, _, _, _, hE⟩ <;>
      rw [hE] at h <;>
      simp at h
    rw [hr] at hr2
    injection hr2 with hr2
    subst hr2
    exact (hchar _).1 hp
  · intro hv
    have hp := (hchar _).2 hv
    refine ⟨passReportStr i st.plan (changedOf env i), ?_⟩
    unfold iterate
    rw [hg, hr]
    simp [hd, ha, hp]

/-- C10 witness: the lowercase verdict "pass" of `envNp` does not
terminate the run. -/
theorem c10_witness :
    ((∃ r, (iterate envNp 1 ⟨"P0", WTree.start⟩).2 = StepRes.done r) ↔
      dictGet (parseVerdict envNp.parse "\x7bN\x7d") "verdict" =
        some (Json.str "PASS")) ∧
    (∀ d, passCheck d = true ↔
      dictGet d "verdict" = some (Json.str "PASS")) ∧
    passCheck [("verdict", Json.str "pass")] = false ∧
    passCheck [] = false ∧
    passCheck [("verdict", Json.num 1)] = false ∧
    passCheck [("verdict", Json.str "PASS")] = true :=
  c10_pass_case_sensitive envNp 1 ⟨"P0", WTree.start⟩ dGit "\x7bN\x7d" rfl rfl
    rfl rfl

/-- C1: if the run reaches iteration N (1 ≤ N ≤ MAX_ITERS) and
iteration N's review yields a verdict passing the PASS check, the run
terminates at iteration N as PASS, the written report states
"PASS (iteration N)", and no generation / patch-store / review call of
any later iteration occurs. -/
theorem c1_pass_terminates (env : Env) (N : Nat) (plan0 : String)
    (s : IterState) (diff vtext : String)
    (hplan : env.planResp = Except.ok plan0)
    (hN1 : 1 ≤ N) (hN2 : N ≤ env.maxIters)
    (hreach : reachFrom env 1 ⟨plan0, WTree.start⟩ (N - 1) = some s)
    (hg : env.genResp N = Except.ok diff)
    (hd : strStartsWith diff "diff --git" = true)
    (ha : env.applyOk N = true)
    (hr : env.reviewResp N = Except.ok vtext)
    (hpass : passCheck (parseVerdict env.parse vtext) = true) :
    (mainRun env).2 =
      RunResult.passed N (passReportStr N s.plan (changedOf env N)) ∧
    ("PASS (iteration " ++ toString N ++ ")").data <:+:
      (passReportStr N s.plan (changedOf env N)).data ∧
    ∀ e ∈ (mainRun env).1, ∀ j, callIdx e = some j → j ≤ N := by
  have hIt : iterate env N s =
      (passEvs N diff (parseVerdict env.parse vtext)
         (passReportStr N s.plan (changedOf env N)),
       StepRes.done (passReportStr N s.plan (changedOf env N))) := by
    unfold iterate
    rw [hg, hr]
    simp [hd, ha, hpass]
  have hNs : 1 + (N - 1) = N := by omega
  have hIt' : iterate env (1 + (N - 1)) s =
      (passEvs N diff (parseVerdict env.parse vtext)
         (passReportStr N s.plan (changedOf env N)),
       StepRes.done (passReportStr N s.plan (changedOf env N))) := by
    rw [hNs]; exact hIt
  have hrd := runFrom_reach_done env (N - 1) 1 ⟨plan0, WTree.start⟩ s _ _
      env.maxIters hreach hIt' (by omega)
  rw [hNs] at hrd
  refine ⟨?_, (passReport_parts N s.plan (changedOf env N)).1, ?_⟩
  · simp only [mainRun, hplan]
    exact hrd.1
  · intro e he j hj
    simp only [mainRun, hplan] at he
    rcases List.mem_cons.1 he with heq | hmem
    · subst heq
      exact Option.noConfusion hj
    · exact hrd.2 e hmem j hj

/-- C1 witness: `envPass` passes review at iteration 1 and the run stops
there. -/
theorem c1_witness :
    (mainRun envPass).2 =
      RunResult.passed 1 (passReportStr 1 "P" (changedOf envPass 1)) ∧
    ("PASS (iteration " ++ toString 1 ++ ")").data <:+:
      (passReportStr 1 "P" (changedOf envPass 1)).data ∧
    ∀ e ∈ (mainRun envPass).1, ∀ j, callIdx e = some j → j ≤ 1 :=
  c1_pass_terminates envPass 1 "P" ⟨"P", WTree.start⟩ dGit "\x7bP\x7d" rfl
    (Nat.le_refl 1) (by decide) rfl rfl rfl rfl rfl rfl

/-- C2, evaluated at the failing input `envCrash`: a transport exception
from the iteration-1 generation call propagates out of `main`; the run
ends in neither PASS nor NONPASS and no report is ever written —
contradicting the claim that every run ends in one of the two terminal
states with a report. -/
theorem c2_uncaught_transport_crash :
    (mainRun envCrash).2 =
      RunResult.crashed "requests.exceptions.ConnectionError" ∧
    (mainRun envCrash).1.filter isReport = [] ∧
    (mainRun envCrash).1 = [Event.writePlan "P", Event.genCall 1] :=
  ⟨rfl, rfl, rfl⟩

/-- C4: every `git apply` in any run happens with the working tree at
the just-reset clean baseline, and the same iteration performed the
reset. -/
theorem c4_apply_on_baseline (env : Env) (e : Event)
    (he : e ∈ (mainRun env).1) (j : Nat) (t : WTree) (d : String)
    (hd : e = Event.applyCall j t d) :
    t = WTree.baseline ∧ Event.resetCall j ∈ (mainRun env).1 := by
  subst hd
  rcases hp : env.planResp with er | plan0
  · simp only [mainRun, hp] at he
    cases he
  · simp only [mainRun, hp] at he ⊢
    rcases List.mem_cons.1 he with heq | hmem
    · exact Event.noConfusion heq
    · have h2 := runFrom_applyCall env env.maxIters 1 ⟨plan0, WTree.start⟩
        j t d hmem
      exact ⟨h2.1, List.mem_cons_of_mem _ h2.2⟩

/-- C4 witness: the concrete apply of `envPass`'s run is on the
baseline, preceded by a reset. -/
theorem c4_witness :
    WTree.baseline = WTree.baseline ∧
    Event.resetCall 1 ∈ (mainRun envPass).1 :=
  c4_apply_on_baseline envPass (Event.applyCall 1 WTree.baseline dGit)
    (List.Mem.tail _ (List.Mem.tail _ (List.Mem.tail _ (List.Mem.tail _
      (List.Mem.head _))))) 1 WTree.baseline dGit rfl

/-- C7: when all MAX_ITERS iterations complete without a PASS, the run
exhausts: the written report records "NONPASS (exhausted MAX_ITERS
iterations)" and contains the final plan text in full. -/
theorem c7_exhaustion_report (env : Env) (plan0 : String) (s : IterState)
    (hplan : env.planResp = Except.ok plan0)
    (hreach : reachFrom env 1 ⟨plan0, WTree.start⟩ env.maxIters = some s) :
    (mainRun env).2 =
      RunResult.exhausted (exhaustReportStr env.maxIters s.plan) ∧
    Event.writeReport (exhaustReportStr env.maxIters s.plan) ∈
      (mainRun env).1 ∧
    ("NONPASS (exhausted " ++ toString env.maxIters ++ " iterations)").data <:+:
      (exhaustReportStr env.maxIters s.plan).data ∧
    s.plan.data <:+: (exhaustReportStr env.maxIters s.plan).data := by
  have h2 := runFrom_reach_exhaust env env.maxIters 1 ⟨plan0, WTree.start⟩ s
    hreach
  refine ⟨?_, ?_, (exhaustReport_parts env.maxIters s.plan).1,
    (exhaustReport_parts env.maxIters s.plan).2.1⟩
  · simp only [mainRun, hplan]
    exact h2.1
  · simp only [mainRun, hplan]
    exact List.mem_cons_of_mem _ h2.2

/-- C7 witness: `envNp` exhausts its single iteration. -/
theorem c7_witness :
    (mainRun envNp).2 =
      RunResult.exhausted
        (exhaustReportStr envNp.maxIters ("P0" ++ feedbackSection [])) ∧
    Event.writeReport
        (exhaustReportStr envNp.maxIters ("P0" ++ feedbackSection [])) ∈
      (mainRun envNp).1 ∧
    ("NONPASS (exhausted " ++ toString envNp.maxIters ++ " iterations)").data <:+:
      (exhaustReportStr envNp.maxIters ("P0" ++ feedbackSection [])).data ∧
    ("P0" ++ feedbackSection []).data <:+:
      (exhaustReportStr envNp.maxIters ("P0" ++ feedbackSection [])).data :=
  c7_exhaustion_report envNp "P0"
    ⟨"P0" ++ feedbackSection [], WTree.patched dGit⟩ rfl rfl

/-- C8 counterexample: in `envNp`'s run the loop exhausts, the
changed-file list of its only iteration is "zzz_changed.txt", yet the
terminal report does not contain it — the exhaustion report has no
changed-file section, so the claim fails as stated. -/
theorem c8_cex_no_changed_files :
    (mainRun envNp).2 =
      RunResult.exhausted (exhaustReportStr 1 ("P0" ++ feedbackSection [])) ∧
    changedOf envNp 1 = "zzz_changed.txt" ∧
    ¬ ("zzz_changed.txt".data <:+:
        (exhaustReportStr 1 ("P0" ++ feedbackSection [])).data) :=
  ⟨rfl, rfl, by decide⟩

/-- C8 amended: every report ever written is either a PASS report or the
exhaustion report; a PASS report contains the outcome with its iteration
number, the plan, the changed-file list and pointers to `patch.diff` and
`verify.json`; the exhaustion report contains the outcome with its
exhaustion note, the final plan and a pointer to `verify.json` (but no
changed-file list). -/
theorem c8_amended_report_contents (env : Env) :
    (∀ rep, Event.writeReport rep ∈ (mainRun env).1 →
      (∃ j p c, rep = passReportStr j p c) ∨
      (∃ p, rep = exhaustReportStr env.maxIters p)) ∧
    (∀ (j : Nat) (p c : String),
      ("PASS (iteration " ++ toString j ++ ")").data <:+:
        (passReportStr j p c).data ∧
      p.data <:+: (passReportStr j p c).data ∧
      c.data <:+: (passReportStr j p c).data ∧
      "patch.diff".data <:+: (passReportStr j p c).data ∧
      "verify.json".data <:+: (passReportStr j p c).data) ∧
    (∀ (n : Nat) (p : String),
      ("NONPASS (exhausted " ++ toString n ++ " iterations)").data <:+:
        (exhaustReportStr n p).data ∧
      p.data <:+: (exhaustReportStr n p).data ∧
      "verify.json".data <:+: (exhaustReportStr n p).data) := by
  refine ⟨?_, passReport_parts, exhaustReport_parts⟩
  intro rep hm
  rcases hp : env.planResp with er | plan0
  · simp only [mainRun, hp] at hm
    cases hm
  · simp only [mainRun, hp] at hm
    rcases List.mem_cons.1 hm with heq | hmem
    · exact Event.noConfusion heq
    · exact runFrom_report env env.maxIters 1 ⟨plan0, WTree.start⟩ rep hmem

/-- C8 amended witness: the report written by `envNp`'s run is
classified, and a concrete exhaustion report contains its
`verify.json` pointer. -/
theorem c8_witness :
    ((∃ j p c, exhaustReportStr envNp.maxIters ("P0" ++ feedbackSection []) =
        passReportStr j p c) ∨
      (∃ p, exhaustReportStr envNp.maxIters ("P0" ++ feedbackSection []) =
        exhaustReportStr envNp.maxIters p)) ∧
    "verify.json".data <:+: (exhaustReportStr 1 "x").data :=
  ⟨(c8_amended_report_contents envNp).1
      (exhaustReportStr envNp.maxIters ("P0" ++ feedbackSection []))
      (List.mem_cons_of_mem _
        (runFrom_reach_exhaust envNp 1 1 ⟨"P0", WTree.start⟩
          ⟨"P0" ++ feedbackSection [], WTree.patched dGit⟩ rfl).2),
   ((c8_amended_report_contents envNp).2.2 1 "x").2.2⟩

end AiLoop
